import Mathlib

/-
Verification of the star-history accumulation and trend-crossing
prediction logic of the mise-analytics scripts.

The scripts are shallowly embedded:
* calendar dates are day numbers (Nat for the CSV merges, Int for the
  chart scripts whose pandas dates are only ever subtracted);
* star counts and regression values are exact rationals (Rat);
* CSV tables are lists of row structures; CSV cells that the scripts
  only ever copy verbatim are kept as String, cells that are written
  with str(n) and read back with int(s) are kept as the number n
  (decimal serialization of naturals is a bijection);
* a timestamped star event is its UTC timestamp in whole seconds, so
  truncation of a timestamp to a calendar day is division by 86400;
* dict-based tables keyed by date are association lists looked up by
  the date field, and python sorted(...) is insertion sort (stable);
* fallible steps (a raised exception) are a distinguished constructor.
-/

namespace MiseAnalytics

/-! ## Shared list utilities -/

/-- Sorted list of naturals, as produced by python sorted(...). -/
def sortNat (l : List Nat) : List Nat := List.insertionSort (· ≤ ·) l

/-- Maximum of a list of Int, used for date .max() on nonempty frames. -/
def listMaxI : List Int → Int
  | [] => 0
  | [a] => a
  | a :: b :: l => max a (listMaxI (b :: l))

/-- Minimum of a list of Int, used for date .min() on nonempty frames. -/
def listMinI : List Int → Int
  | [] => 0
  | [a] => a
  | a :: b :: l => min a (listMinI (b :: l))

/-! ## DailyDelta

A defaultdict(int) from calendar day to number of star events on that
day.  Keys are unique in the scripts; lookups of absent keys give 0
(dict.get(date, 0)). -/

/-- Association list from day number to event count. -/
abbrev DailyDelta := List (Nat × Nat)

/-- Lookup with default 0, the semantics of star_history.get(date, 0). -/
def ddGet (dd : DailyDelta) (k : Nat) : Nat :=
  match dd.find? (fun p => p.1 == k) with
  | some p => p.2
  | none => 0

/-- The key set of a DailyDelta. -/
def ddKeys (dd : DailyDelta) : List Nat := dd.map (fun p => p.1)

/-! ## Competitor frames and the regression slope

Rows of competitors.csv (and fnox-competitors.csv) as the chart
scripts see them: a date, the reference series value (mise_stars or
fnox_stars) and one competitor column value. -/

/-- One row of the competitors frame used by predict_crossing. -/
structure CompRow where
  date : Int
  mise : Rat
  tool : Rat
deriving DecidableEq, Repr

/-- Slope of scipy.stats.linregress(x, y).  scipy raises ValueError when
all x values are identical (this includes fewer than two points), which
is exactly when the denominator n * sum(x^2) - (sum x)^2 vanishes; that
case is none here. -/
def linregressSlope (xs ys : List Rat) : Option Rat :=
  if (xs.length : Rat) * (xs.map (fun a => a * a)).sum - xs.sum * xs.sum = 0 then none
  else some
    (((xs.length : Rat) * ((xs.zip ys).map (fun p => p.1 * p.2)).sum - xs.sum * ys.sum)
      / ((xs.length : Rat) * (xs.map (fun a => a * a)).sum - xs.sum * xs.sum))

/-- The lookback restriction recent_data = df[df.date >= df.date.max() - days],
identical in plot-stats.py, plot-fnox-stats.py and
generate-fastest-growing.py. -/
def recentWindow (df : List CompRow) (days : Int) : List CompRow :=
  df.filter (fun r => decide (listMaxI (df.map (fun s => s.date)) - days ≤ r.date))

/-- Regression abscissae x = (recent.date - recent.date.min()).dt.days. -/
def windowXs (df : List CompRow) (days : Int) : List Rat :=
  (recentWindow df days).map
    (fun r => ((r.date - listMinI ((recentWindow df days).map (fun s => s.date)) : Int) : Rat))

/-- Reference series restricted to the window. -/
def windowMise (df : List CompRow) (days : Int) : List Rat :=
  (recentWindow df days).map (fun r => r.mise)

/-- Competitor series restricted to the window. -/
def windowTool (df : List CompRow) (days : Int) : List Rat :=
  (recentWindow df days).map (fun r => r.tool)

/-- Current reference total df_comp[ref].iloc[-1], read from the full frame. -/
def miseCurrent (df : List CompRow) : Rat :=
  ((df.map (fun r => r.mise)).getLast?).getD 0

/-- Current competitor total df_comp[tool].iloc[-1], read from the full frame. -/
def toolCurrent (df : List CompRow) : Rat :=
  ((df.map (fun r => r.tool)).getLast?).getD 0

/-- Result of one predict_crossing call.  The constructors tag the four
distinct exits of the python function: a propagated exception, a None
return, the already-ahead return of (now, slope difference), and the
extrapolated return of (now + int(days_to_cross) days, daily gain). -/
inductive PredResult where
  | err : PredResult
  | noCross : PredResult
  | ahead (day : Int) (gain : Rat) : PredResult
  | cross (day : Int) (gain : Rat) : PredResult
deriving DecidableEq, Repr

namespace GenFastest

/-- Continuation of generate-fastest-growing.predict_crossing after both
slopes are available (lines 125-146 of the script). -/
def predictCore (msl tsl mc tc : Rat) (now : Int) : PredResult :=
  if msl ≤ tsl then .noCross
  else if tc ≤ mc then .ahead now (msl - tsl)
  else if msl - tsl ≤ 0 then .noCross
  else if (tc - mc) / (msl - tsl) < 0 ∨ 3650 < (tc - mc) / (msl - tsl) then .noCross
  else .cross (now + Rat.floor ((tc - mc) / (msl - tsl))) (msl - tsl)

/-- Data-quality guard of generate-fastest-growing.predict_crossing line 119:
fewer than 2 distinct x values, or a constant series (nunique <= 1). -/
def degenerate (df : List CompRow) (days : Int) : Bool :=
  decide ((windowXs df days).dedup.length < 2)
    || decide ((windowMise df days).dedup.length ≤ 1)
    || decide ((windowTool df days).dedup.length ≤ 1)

/-- predict_crossing of generate-fastest-growing.py (lines 105-146), for a
frame that has the competitor column.  now is the day of datetime.now(UTC). -/
def predict_crossing (df : List CompRow) (days : Int) (now : Int) : PredResult :=
  if df.isEmpty then .noCross
  else if (recentWindow df days).isEmpty then .noCross
  else if degenerate df days then .noCross
  else
    match linregressSlope (windowXs df days) (windowMise df days),
          linregressSlope (windowXs df days) (windowTool df days) with
    | some msl, some tsl => predictCore msl tsl (miseCurrent df) (toolCurrent df) now
    | _, _ => .err

end GenFastest

namespace PlotStats

/-- Continuation of plot-stats.predict_crossing after both slopes are
available (lines 98-123; plot-fnox-stats lines 86-106 are identical).
days_to_cross is set to None exactly when the daily gain is not positive,
and the None and negative cases return together, so the first guard below
is the is-None-or-negative test split in two; int() truncation on the
nonnegative days_to_cross is Rat.floor. -/
def predictCore (msl tsl mc tc : Rat) (now : Int) : PredResult :=
  if msl ≤ tsl then .noCross
  else if tc ≤ mc then .ahead now (msl - tsl)
  else if msl - tsl ≤ 0 then .noCross
  else if (tc - mc) / (msl - tsl) < 0 then .noCross
  else if 3650 < (tc - mc) / (msl - tsl) then .noCross
  else .cross (now + Rat.floor ((tc - mc) / (msl - tsl))) (msl - tsl)

/-- predict_crossing of plot-stats.py (lines 86-123).  There is no
data-quality guard: a window with all x identical makes linregress raise,
which is the err result. -/
def predict_crossing (df : List CompRow) (days : Int) (now : Int) : PredResult :=
  match linregressSlope (windowXs df days) (windowMise df days),
        linregressSlope (windowXs df days) (windowTool df days) with
  | some msl, some tsl => predictCore msl tsl (miseCurrent df) (toolCurrent df) now
  | _, _ => .err

/-- The competitor filter of plot-stats.py lines 50-59 (plot-fnox-stats
lines 41-50): the competitor is active when the subframe of rows with a
positive competitor value is nonempty and its last value exceeds the
reference current count. -/
def activeCompetitor (df : List CompRow) (refCurrent : Rat) : Bool :=
  match (df.filter (fun r => decide (0 < r.tool))).getLast? with
  | none => false
  | some r => decide (refCurrent < r.tool)

end PlotStats

/-! ## Persisted tables

The scripts read a CSV into a dict keyed by the date column, mutate
some fields, and rewrite the file in full.  Cells that are only ever
copied verbatim stay String; cells written as str(n) and reread with
int are the natural number n. -/

/-- Decimal serialization of a natural, python str(n). -/
def natStr (n : Nat) : String := Nat.repr n

/-- The empty CSV cell used for fields owned by another producer. -/
def emptyCell : String := ""

/-- The literal hk_stars value of a synthesized pre-release row. -/
def zeroCell : String := "0"

/-- One row of mise.csv: date, three brew fields owned by the brew
pipeline, and the github_stars field owned by fetch-github-history. -/
structure MiseRow where
  date : Nat
  brew_rank : String
  brew_installs : String
  brew_pct : String
  github_stars : String
deriving DecidableEq, Repr

/-- Lookup of existing_data[date] for mise.csv. -/
def lookupMise (T : List MiseRow) (d : Nat) : Option MiseRow :=
  T.find? (fun r => r.date == d)

/-- One row of hk-competitors.csv.  hk_stars is only copied or written
as a literal by the scripts modelled here, so it stays a String; the
three competitor fields are written as str(n) and read back with int. -/
structure HkRow where
  date : Nat
  hk : String
  precommit : Nat
  prek : Nat
  lefthook : Nat
deriving DecidableEq, Repr

/-- Lookup of existing_data[date] for hk-competitors.csv. -/
def lookupHk (T : List HkRow) (d : Nat) : Option HkRow :=
  T.find? (fun r => r.date == d)

/-- Ordering of hk-competitors rows by date, the key of the final
output_data.sort. -/
def hkRowLe (a b : HkRow) : Prop := a.date ≤ b.date

instance : DecidableRel hkRowLe := fun a b => Nat.decLe a.date b.date

instance : IsTotal HkRow hkRowLe := ⟨fun a b => Nat.le_total a.date b.date⟩

instance : IsTrans HkRow hkRowLe := ⟨fun _ _ _ h1 h2 => Nat.le_trans h1 h2⟩

/-- Stable sort by date of the rows written to hk-competitors.csv. -/
def sortHk (l : List HkRow) : List HkRow := List.insertionSort hkRowLe l

/-- Outcome of one script run: a rewritten table, a printed message
followed by an early return, or a propagated exception. -/
inductive RunOutcome (α : Type) where
  | wrote (table : α) : RunOutcome α
  | earlyReturn (msg : String) : RunOutcome α
  | raised (msg : String) : RunOutcome α
deriving DecidableEq, Repr

/-- Message printed when hk-competitors.csv is absent. -/
def hkCsvMissingMsg : String := "Error: hk-competitors.csv not found"

/-- Message printed when the baseline date is absent from the CSV. -/
def baselineMissingMsg : String := "Error: baseline date not found in CSV"

/-- The exception propagated by pd.read_csv on a missing file. -/
def competitorsCsvMissingMsg : String := "FileNotFoundError: competitors.csv"

namespace FetchGithub

/-- The row written for one date by fetch-github-history.py lines
97-110: reuse the existing row when present, rewriting only
github_stars; synthesize a row with blank brew fields otherwise. -/
def mergeRow (T : List MiseRow) (k c : Nat) : MiseRow :=
  match lookupMise T k with
  | some row => { row with github_stars := natStr c }
  | none =>
    { date := k, brew_rank := emptyCell, brew_installs := emptyCell,
      brew_pct := emptyCell, github_stars := natStr c }

/-- The mise.csv update loop of fetch-github-history.py lines 91-110:
walk the sorted event dates accumulating the cumulative count. -/
def buildRows (T : List MiseRow) (dd : DailyDelta) : List Nat → Nat → List MiseRow
  | [], _ => []
  | k :: ks, c =>
    mergeRow T k (c + ddGet dd k) :: buildRows T dd ks (c + ddGet dd k)

/-- The whole mise.csv merge of fetch-github-history.main (lines 91-117):
the rows written are exactly those for the sorted fetched dates. -/
def merge (T : List MiseRow) (dd : DailyDelta) : List MiseRow :=
  buildRows T dd (sortNat (ddKeys dd)) 0

end FetchGithub

/-- One day of cumulative competitor accumulation, the
cumulative_stars[col_name] += star_history.get(date, 0) loop body shared
by fetch-hk-competitors-history.main and backfill-hk-competitors.main. -/
def stepTriple (d1 d2 d3 : DailyDelta) (d : Nat) (c : Nat × Nat × Nat) :
    Nat × Nat × Nat :=
  (c.1 + ddGet d1 d, c.2.1 + ddGet d2 d, c.2.2 + ddGet d3 d)

namespace FetchHkCompetitors

/-- The page loop of fetch-hk-competitors-history.fetch_stargazer_history
(lines 43-90).  Pages are successive API responses of event timestamps;
the server sends an empty page when the listing is exhausted.  The result
is the list of counted event timestamps (those bucketed into daily_stars)
together with the number of page requests issued: an event strictly past
the cutoff sets stop_fetching but the page is still scanned in full, and
no page is requested afterwards. -/
def fetch_stargazer_history (cutoff : Nat) : List (List Nat) → List Nat × Nat
  | [] => ([], 1)
  | pg :: rest =>
    if pg.isEmpty then ([], 1)
    else if pg.any (fun t => decide (cutoff < t)) then
      (pg.filter (fun t => decide (t ≤ cutoff)), 1)
    else
      (pg.filter (fun t => decide (t ≤ cutoff)) ++ (fetch_stargazer_history cutoff rest).1,
        (fetch_stargazer_history cutoff rest).2 + 1)

/-- The row written for one in-range date by
fetch-hk-competitors-history.main lines 148-162: an existing row keeps
its hk_stars value while the three competitor fields are rewritten; a
synthesized row records hk_stars as the literal zero cell. -/
def mergeRow (T : List HkRow) (d : Nat) (c : Nat × Nat × Nat) : HkRow :=
  match lookupHk T d with
  | some row => { row with precommit := c.1, prek := c.2.1, lefthook := c.2.2 }
  | none =>
    { date := d, hk := zeroCell, precommit := c.1, prek := c.2.1,
      lefthook := c.2.2 }

/-- The per-date loop of fetch-hk-competitors-history.main lines 138-164:
cumulative counts are accumulated over every fetched date, but only dates
from START_DATE (s) onwards produce an output row. -/
def historyRows (T : List HkRow) (d1 d2 d3 : DailyDelta) (s : Nat) :
    List Nat → Nat × Nat × Nat → List HkRow
  | [], _ => []
  | d :: ds, c =>
    if d < s then historyRows T d1 d2 d3 s ds (stepTriple d1 d2 d3 d c)
    else
      mergeRow T d (stepTriple d1 d2 d3 d c)
        :: historyRows T d1 d2 d3 s ds (stepTriple d1 d2 d3 d c)

/-- All unique fetched dates, sorted ascending (python sorted(set(...))). -/
def allDeltaDates (d1 d2 d3 : DailyDelta) : List Nat :=
  sortNat ((ddKeys d1 ++ ddKeys d2 ++ ddKeys d3).dedup)

/-- The whole hk-competitors.csv merge of fetch-hk-competitors-history.main
(lines 126-179): rows for the fetched dates from s on, then the existing
rows dated strictly after the cutoff rel, sorted by date. -/
def merge (T : List HkRow) (d1 d2 d3 : DailyDelta) (s rel : Nat) : List HkRow :=
  sortHk (historyRows T d1 d2 d3 s (allDeltaDates d1 d2 d3) (0, 0, 0)
    ++ T.filter (fun r => decide (rel < r.date)))

end FetchHkCompetitors

namespace BackfillHk

/-- The date filter of backfill-hk-competitors.fetch_stargazer_history
lines 39-64: start_dt is midnight UTC of the start day, end_dt is
23:59:59 UTC of the end day, and an event is counted iff
start_dt <= starred_at <= end_dt.  Timestamps are whole seconds. -/
def included (s e t : Nat) : Bool :=
  decide (s * 86400 ≤ t) && decide (t ≤ e * 86400 + 86399)

/-- The page loop of backfill-hk-competitors.fetch_stargazer_history
(lines 42-93).  Pages are successive API responses of event timestamps
(every event carries one); the server sends an empty page at exhaustion.
Each page is scanned in full, counting the events inside
[start_dt, end_dt]; after the scan, if the page's last event is past
end_dt (23:59:59 UTC of the end day) no further page is requested.  The
result is the list of counted event timestamps and the number of page
requests issued. -/
def fetch_stargazer_history (s e : Nat) : List (List Nat) → List Nat × Nat
  | [] => ([], 1)
  | pg :: rest =>
    if pg.isEmpty then ([], 1)
    else if e * 86400 + 86399 < pg.getLastD 0 then (pg.filter (included s e), 1)
    else
      (pg.filter (included s e) ++ (fetch_stargazer_history s e rest).1,
        (fetch_stargazer_history s e rest).2 + 1)

/-- Cumulative competitor triples per date, from the per-date loop of
backfill-hk-competitors.main lines 159-162. -/
def cumTriples (d1 d2 d3 : DailyDelta) :
    List Nat → Nat × Nat × Nat → List (Nat × (Nat × Nat × Nat))
  | [], _ => []
  | d :: ds, c =>
    (d, stepTriple d1 d2 d3 d c) :: cumTriples d1 d2 d3 ds (stepTriple d1 d2 d3 d c)

/-- Row update of backfill-hk-competitors.main lines 164-168: a row whose
date is in the backfill range gets the three competitor fields rewritten
to the cumulative counts; any other row is untouched. -/
def updateRow (cums : List (Nat × (Nat × Nat × Nat))) (r : HkRow) : HkRow :=
  match cums.find? (fun p => p.1 == r.date) with
  | some p => { r with precommit := p.2.1, prek := p.2.2.1, lefthook := p.2.2.2 }
  | none => r

/-- The table rewrite performed once the baseline row b was found:
update every row, then write sorted by date (lines 159-177). -/
def applyMerge (T : List HkRow) (b : HkRow) (d1 d2 d3 : DailyDelta)
    (dates : List Nat) : List HkRow :=
  sortHk (T.map (updateRow (cumTriples d1 d2 d3 dates (b.precommit, b.prek, b.lefthook))))

/-- Effect of backfill-hk-competitors.main on the persisted table: if the
baseline date is missing the script returns early and the file keeps its
old contents, otherwise the updated table is written. -/
def merge (T : List HkRow) (d1 d2 d3 : DailyDelta) (dates : List Nat)
    (bd : Nat) : List HkRow :=
  match lookupHk T bd with
  | none => T
  | some b => applyMerge T b d1 d2 d3 dates

/-- backfill-hk-competitors.main (lines 107-177) as a run outcome, with
the persisted file passed in as (none for absent). -/
def run (file : Option (List HkRow)) (d1 d2 d3 : DailyDelta)
    (dates : List Nat) (bd : Nat) : RunOutcome (List HkRow) :=
  match file with
  | none => .earlyReturn hkCsvMissingMsg
  | some T =>
    match lookupHk T bd with
    | none => .earlyReturn baselineMissingMsg
    | some b => .wrote (applyMerge T b d1 d2 d3 dates)

end BackfillHk

namespace FetchHkHistory

/-- Carry-forward of the last known competitor row strictly before a
date, fetch-hk-history.main lines 116-121. -/
def latestBefore (T : List HkRow) (d : Nat) : Option HkRow :=
  T.foldl
    (fun acc r =>
      if r.date < d then
        match acc with
        | none => some r
        | some a => if a.date < r.date then some r else some a
      else acc)
    none

/-- The row written for one date by fetch-hk-history.main lines 111-139:
an existing row keeps every competitor field and gets hk_stars
rewritten; a missing date synthesizes a row from the last known
competitor values (or zeros). -/
def mergeRow (T : List HkRow) (d c : Nat) : HkRow :=
  match lookupHk T d with
  | some row => { row with hk := natStr c }
  | none =>
    match latestBefore T d with
    | some lr =>
      { date := d, hk := natStr c, precommit := lr.precommit,
        prek := lr.prek, lefthook := lr.lefthook }
    | none => { date := d, hk := natStr c, precommit := 0, prek := 0, lefthook := 0 }

/-- The per-date loop of fetch-hk-history.main lines 107-141, walking the
processed dates with the cumulative hk star count. -/
def rowsFrom (T : List HkRow) (dd : DailyDelta) : List Nat → Nat → List HkRow
  | [], _ => []
  | d :: ds, c =>
    mergeRow T d (c + ddGet dd d) :: rowsFrom T dd ds (c + ddGet dd d)

/-- The whole hk-competitors.csv rewrite of fetch-hk-history.main lines
97-156: rows for every known or fetched date from the release date rel
onwards, preceded by the untouched pre-release rows, sorted by date. -/
def merge (T : List HkRow) (dd : DailyDelta) (rel : Nat) : List HkRow :=
  sortHk (T.filter (fun r => decide (r.date < rel))
    ++ rowsFrom T dd
        (sortNat (((T.map (fun r => r.date)) ++ ddKeys dd).dedup.filter
          (fun d => decide (rel ≤ d)))) 0)

/-- fetch-hk-history.main (lines 82-156) as a run outcome. -/
def run (file : Option (List HkRow)) (dd : DailyDelta) (rel : Nat) :
    RunOutcome (List HkRow) :=
  match file with
  | none => .earlyReturn hkCsvMissingMsg
  | some T => .wrote (merge T dd rel)

end FetchHkHistory

namespace BackfillJust

/-- The date filter of backfill-just.fetch_stargazers_history lines
28-66: both bounds are midnight UTC of their day (fromisoformat of a
date string), the event is skipped when starred_at < start_dt or
starred_at > end_dt.  Timestamps are whole seconds. -/
def included (s? e? : Option Nat) (t : Nat) : Bool :=
  (match s? with
   | some s => decide (s * 86400 ≤ t)
   | none => true)
  && (match e? with
      | some e => decide (t ≤ e * 86400)
      | none => true)

/-- Cumulative star counts per fetched date, backfill-just lines 103-109. -/
def cumList (dd : DailyDelta) : List Nat → Nat → List (Nat × Nat)
  | [], _ => []
  | d :: ds, c => (d, c + ddGet dd d) :: cumList dd ds (c + ddGet dd d)

/-- One row of competitors.csv as backfill-just sees it: the date and,
opaquely, the contents of every other column, which the script never
reads and rewrites verbatim. -/
structure RowIn where
  date : Nat
  rest : String
deriving DecidableEq, Repr

/-- A row after the just_stars column has been filled in. -/
structure RowOut where
  date : Nat
  rest : String
  just_stars : Nat
deriving DecidableEq, Repr

/-- Ordering of output rows by date for df.sort_values. -/
def justRowLe (a b : RowOut) : Prop := a.date ≤ b.date

instance : DecidableRel justRowLe := fun a b => Nat.decLe a.date b.date

instance : IsTotal RowOut justRowLe := ⟨fun a b => Nat.le_total a.date b.date⟩

instance : IsTrans RowOut justRowLe := ⟨fun _ _ _ h1 h2 => Nat.le_trans h1 h2⟩

/-- Stable sort by date of the updated competitors.csv rows. -/
def sortJust (l : List RowOut) : List RowOut := List.insertionSort justRowLe l

/-- The dataframe update of backfill-just lines 103-126: each row gets
just_stars from the cumulative map when its date was fetched, 0 when it
precedes the first fetched date (or no date was fetched), and the last
known cumulative total otherwise; the result is sorted by date. -/
def update (df : List RowIn) (dd : DailyDelta) : List RowOut :=
  let sd := sortNat (ddKeys dd)
  let cums := cumList dd sd 0
  let total := (sd.map (ddGet dd)).sum
  sortJust (df.map (fun r =>
    { date := r.date, rest := r.rest,
      just_stars :=
        match cums.find? (fun p => p.1 == r.date) with
        | some p => p.2
        | none =>
          match sd with
          | [] => 0
          | f :: _ => if r.date < f then 0 else total }))

/-- backfill-just as a run outcome: the module-level pd.read_csv of
competitors.csv (line 85) is outside any try block, so a missing file
propagates FileNotFoundError instead of returning early. -/
def run (file : Option (List RowIn)) (dd : DailyDelta) : RunOutcome (List RowOut) :=
  match file with
  | none => .raised competitorsCsvMissingMsg
  | some df => .wrote (update df dd)

end BackfillJust

/-! ## Helper lemmas on the regression slope -/

theorem sumSqDev (xs : List Rat) (m : Rat) :
    (xs.map (fun a => (a - m) * (a - m))).sum
      = (xs.map (fun a => a * a)).sum - 2 * m * xs.sum + (xs.length : Rat) * (m * m) := by
  induction xs with
  | nil => simp
  | cons a l ih =>
    simp only [List.map_cons, List.sum_cons, ih, List.length_cons]
    push_cast
    ring

theorem olsDenomPos {xs : List Rat} {a b : Rat} (ha : a ∈ xs) (hb : b ∈ xs)
    (hab : a ≠ b) :
    0 < (xs.length : Rat) * (xs.map (fun t => t * t)).sum - xs.sum * xs.sum := by
  have hne : xs ≠ [] := by
    intro h
    rw [h] at ha
    exact absurd ha (List.not_mem_nil a)
  have hlen : 0 < (xs.length : Rat) := by
    exact_mod_cast List.length_pos.mpr hne
  have hlne : (xs.length : Rat) ≠ 0 := ne_of_gt hlen
  have key : (xs.length : Rat) * (xs.map (fun t => (t - xs.sum / xs.length) * (t - xs.sum / xs.length))).sum
      = (xs.length : Rat) * (xs.map (fun t => t * t)).sum - xs.sum * xs.sum := by
    rw [sumSqDev]
    field_simp
    ring
  have hnn : ∀ x ∈ xs.map (fun t => (t - xs.sum / xs.length) * (t - xs.sum / xs.length)), 0 ≤ x := by
    intro x hx
    obtain ⟨t, _, rfl⟩ := List.mem_map.mp hx
    exact mul_self_nonneg _
  have hc : ∃ c ∈ xs, c ≠ xs.sum / xs.length := by
    by_contra h
    push_neg at h
    exact hab ((h a ha).trans (h b hb).symm)
  obtain ⟨c, hc1, hc2⟩ := hc
  have hpos : 0 < (c - xs.sum / xs.length) * (c - xs.sum / xs.length) :=
    mul_self_pos.mpr (sub_ne_zero.mpr hc2)
  have hle : (c - xs.sum / xs.length) * (c - xs.sum / xs.length)
      ≤ (xs.map (fun t => (t - xs.sum / xs.length) * (t - xs.sum / xs.length))).sum :=
    List.single_le_sum hnn _ (List.mem_map_of_mem _ hc1)
  have hsum := lt_of_lt_of_le hpos hle
  calc (0 : Rat) < (xs.length : Rat)
        * (xs.map (fun t => (t - xs.sum / xs.length) * (t - xs.sum / xs.length))).sum :=
        mul_pos hlen hsum
    _ = _ := key

theorem linregressSlope_isSome {xs : List Rat} (h2 : 2 ≤ xs.dedup.length)
    (ys : List Rat) : ∃ v, linregressSlope xs ys = some v := by
  obtain ⟨a, b, l, hd⟩ : ∃ a b l, xs.dedup = a :: b :: l := by
    match he : xs.dedup with
    | [] => rw [he] at h2; simp at h2
    | [a] => rw [he] at h2; simp at h2
    | a :: b :: l => exact ⟨a, b, l, rfl⟩
  have ha : a ∈ xs := List.mem_dedup.mp (hd ▸ List.mem_cons_self a _)
  have hb : b ∈ xs := List.mem_dedup.mp
    (hd ▸ List.mem_cons_of_mem a (List.mem_cons_self b l))
  have hab : a ≠ b := by
    have hnd := List.nodup_dedup xs
    rw [hd] at hnd
    intro h
    exact (List.nodup_cons.mp hnd).1 (h ▸ List.mem_cons_self b l)
  have hpos := olsDenomPos ha hb hab
  have heq : linregressSlope xs ys = some
      (((xs.length : Rat) * ((xs.zip ys).map (fun p => p.1 * p.2)).sum - xs.sum * ys.sum)
        / ((xs.length : Rat) * (xs.map (fun a => a * a)).sum - xs.sum * xs.sum)) := by
    unfold linregressSlope
    rw [if_neg (ne_of_gt hpos)]
  exact ⟨_, heq⟩

theorem genFastest_predictCore_ne_err (msl tsl mc tc : Rat) (now : Int) :
    GenFastest.predictCore msl tsl mc tc now ≠ PredResult.err := by
  unfold GenFastest.predictCore
  split_ifs <;> simp

theorem degenerate_false_slopes (df : List CompRow) (days : Int)
    (h : GenFastest.degenerate df days = false) :
    (∃ v, linregressSlope (windowXs df days) (windowMise df days) = some v)
    ∧ ∃ v, linregressSlope (windowXs df days) (windowTool df days) = some v := by
  have hx : 2 ≤ (windowXs df days).dedup.length := by
    unfold GenFastest.degenerate at h
    simp only [Bool.or_eq_false_iff, decide_eq_false_iff_not] at h
    omega
  exact ⟨linregressSlope_isSome hx _, linregressSlope_isSome hx _⟩

theorem plotCore_ne_ahead {msl tsl mc tc : Rat} {now : Int}
    (h : mc < tc) (dy : Int) (g : Rat) :
    PlotStats.predictCore msl tsl mc tc now ≠ PredResult.ahead dy g := by
  unfold PlotStats.predictCore
  split_ifs with hc1 hc2 <;> simp
  exact absurd hc2 (not_le.mpr h)

/-! ## Claim C6 -/

/-- Claim C6 (corrected): the per-window predictor of
generate-fastest-growing.py returns no result on a degenerate window
(fewer than 2 distinct x values, or a constant series) and never raises;
the claim fails for plot-stats.py, whose predictor has no such guard
(see the counterexample), so the guarded behaviour is stated here for
generate-fastest-growing only. -/
theorem c6_genfastest_degenerate_guard (df : List CompRow) (days now : Int) :
    (GenFastest.degenerate df days = true →
      GenFastest.predict_crossing df days now = PredResult.noCross)
    ∧ GenFastest.predict_crossing df days now ≠ PredResult.err := by
  constructor
  · intro h
    unfold GenFastest.predict_crossing
    split_ifs <;> rfl
  · by_cases h1 : df.isEmpty = true
    · simp [GenFastest.predict_crossing, h1]
    · by_cases h2 : (recentWindow df days).isEmpty = true
      · simp [GenFastest.predict_crossing, h1, h2]
      · by_cases h3 : GenFastest.degenerate df days = true
        · simp [GenFastest.predict_crossing, h1, h2, h3]
        · obtain ⟨⟨v1, hv1⟩, v2, hv2⟩ :=
            degenerate_false_slopes df days (Bool.eq_false_iff.mpr h3)
          have hred : GenFastest.predict_crossing df days now
              = GenFastest.predictCore v1 v2 (miseCurrent df) (toolCurrent df) now := by
            simp [GenFastest.predict_crossing, h1, h2, h3, hv1, hv2]
          rw [hred]
          exact genFastest_predictCore_ne_err _ _ _ _ _

/-- Witness for C6 at a window with a single x value. -/
theorem c6_witness :
    GenFastest.predict_crossing ([⟨0, 1, 2⟩] : List CompRow) 30 0 = PredResult.noCross
    ∧ GenFastest.predict_crossing ([⟨0, 1, 2⟩] : List CompRow) 30 0 ≠ PredResult.err :=
  ⟨(c6_genfastest_degenerate_guard ([⟨0, 1, 2⟩] : List CompRow) 30 0).1
      (by with_unfolding_all decide),
   (c6_genfastest_degenerate_guard ([⟨0, 1, 2⟩] : List CompRow) 30 0).2⟩

/-- Counterexample for C6 as stated: the plot-stats predictor on a window
with a single distinct x value propagates the linregress exception
instead of returning no result. -/
theorem c6_counterexample :
    PlotStats.predict_crossing ([⟨0, 1, 2⟩] : List CompRow) 30 0 = PredResult.err := by
  with_unfolding_all decide

/-! ## Claim C1 -/

/-- Claim C1 (corrected): when the reference current total is at least
the competitor current total, both predictors report the already-crossed
result only when the reference slope strictly exceeds the competitor
slope, so the reported daily gain is strictly positive; when the
reference slope does not exceed the competitor slope, the slope check
(which precedes the already-ahead check in both scripts) yields no
result instead. -/
theorem c1_already_ahead_requires_positive_gain (df : List CompRow)
    (days now : Int) (h : toolCurrent df ≤ miseCurrent df) :
    (GenFastest.predict_crossing df days now = PredResult.noCross
      ∨ ∃ g, 0 < g ∧ GenFastest.predict_crossing df days now = PredResult.ahead now g)
    ∧ (PlotStats.predict_crossing df days now = PredResult.err
      ∨ PlotStats.predict_crossing df days now = PredResult.noCross
      ∨ ∃ g, 0 < g ∧ PlotStats.predict_crossing df days now = PredResult.ahead now g) := by
  constructor
  · by_cases h1 : df.isEmpty = true
    · exact Or.inl (by simp [GenFastest.predict_crossing, h1])
    · by_cases h2 : (recentWindow df days).isEmpty = true
      · exact Or.inl (by simp [GenFastest.predict_crossing, h1, h2])
      · by_cases h3 : GenFastest.degenerate df days = true
        · exact Or.inl (by simp [GenFastest.predict_crossing, h1, h2, h3])
        · obtain ⟨⟨v1, hv1⟩, v2, hv2⟩ :=
            degenerate_false_slopes df days (Bool.eq_false_iff.mpr h3)
          have hred : GenFastest.predict_crossing df days now
              = GenFastest.predictCore v1 v2 (miseCurrent df) (toolCurrent df) now := by
            simp [GenFastest.predict_crossing, h1, h2, h3, hv1, hv2]
          rw [hred]
          unfold GenFastest.predictCore
          split_ifs with hc1
          · exact Or.inl rfl
          · exact Or.inr ⟨v1 - v2, sub_pos.mpr (lt_of_not_le hc1), rfl⟩
  · rcases hv1 : linregressSlope (windowXs df days) (windowMise df days) with _ | v1
    · exact Or.inl (by simp [PlotStats.predict_crossing, hv1])
    · rcases hv2 : linregressSlope (windowXs df days) (windowTool df days) with _ | v2
      · exact Or.inl (by simp [PlotStats.predict_crossing, hv1, hv2])
      · have hred : PlotStats.predict_crossing df days now
            = PlotStats.predictCore v1 v2 (miseCurrent df) (toolCurrent df) now := by
          simp [PlotStats.predict_crossing, hv1, hv2]
        rw [hred]
        unfold PlotStats.predictCore
        split_ifs with hc1
        · exact Or.inr (Or.inl rfl)
        · exact Or.inr (Or.inr ⟨v1 - v2, sub_pos.mpr (lt_of_not_le hc1), rfl⟩)

/-- Witness for C1 at the already-ahead example of the spec:
reference 100,110,120 against competitor 50,55,60. -/
theorem c1_witness :
    (GenFastest.predict_crossing
        ([⟨0, 100, 50⟩, ⟨1, 110, 55⟩, ⟨2, 120, 60⟩] : List CompRow) 30 0 = PredResult.noCross
      ∨ ∃ g, 0 < g ∧ GenFastest.predict_crossing
        ([⟨0, 100, 50⟩, ⟨1, 110, 55⟩, ⟨2, 120, 60⟩] : List CompRow) 30 0 = PredResult.ahead 0 g)
    ∧ (PlotStats.predict_crossing
        ([⟨0, 100, 50⟩, ⟨1, 110, 55⟩, ⟨2, 120, 60⟩] : List CompRow) 30 0 = PredResult.err
      ∨ PlotStats.predict_crossing
        ([⟨0, 100, 50⟩, ⟨1, 110, 55⟩, ⟨2, 120, 60⟩] : List CompRow) 30 0 = PredResult.noCross
      ∨ ∃ g, 0 < g ∧ PlotStats.predict_crossing
        ([⟨0, 100, 50⟩, ⟨1, 110, 55⟩, ⟨2, 120, 60⟩] : List CompRow) 30 0 = PredResult.ahead 0 g) :=
  c1_already_ahead_requires_positive_gain
    ([⟨0, 100, 50⟩, ⟨1, 110, 55⟩, ⟨2, 120, 60⟩] : List CompRow) 30 0
    (by with_unfolding_all decide)

/-- Counterexample for C1 as stated: a frame where the reference is ahead
on current totals but behind on slope; both predictors return no result
instead of the already-crossed-now result with nonpositive gain that the
claim requires. -/
theorem c1_counterexample :
    toolCurrent ([⟨0, 100, 10⟩, ⟨1, 101, 20⟩, ⟨2, 102, 30⟩] : List CompRow)
      ≤ miseCurrent ([⟨0, 100, 10⟩, ⟨1, 101, 20⟩, ⟨2, 102, 30⟩] : List CompRow)
    ∧ GenFastest.predict_crossing
        ([⟨0, 100, 10⟩, ⟨1, 101, 20⟩, ⟨2, 102, 30⟩] : List CompRow) 30 0 = PredResult.noCross
    ∧ PlotStats.predict_crossing
        ([⟨0, 100, 10⟩, ⟨1, 101, 20⟩, ⟨2, 102, 30⟩] : List CompRow) 30 0 = PredResult.noCross := by
  with_unfolding_all decide

/-! ## Helper lemmas on table lookups and the merges -/

theorem lookupMise_date {T : List MiseRow} {d : Nat} {r : MiseRow}
    (h : lookupMise T d = some r) : r.date = d := by
  have := List.find?_some h
  simpa using this

theorem lookupHk_date {T : List HkRow} {d : Nat} {r : HkRow}
    (h : lookupHk T d = some r) : r.date = d := by
  have := List.find?_some h
  simpa using this

theorem lookupHk_mem {T : List HkRow} {d : Nat} {r : HkRow}
    (h : lookupHk T d = some r) : r ∈ T :=
  List.mem_of_find?_eq_some h

theorem lookupHk_unique {T : List HkRow}
    (hnd : (T.map (fun r => r.date)).Nodup) {r : HkRow} (hr : r ∈ T) :
    lookupHk T r.date = some r := by
  induction T with
  | nil => exact absurd hr (List.not_mem_nil r)
  | cons a T ih =>
    rcases List.mem_cons.mp hr with rfl | hr2
    · exact List.find?_cons_of_pos _ (by simp)
    · have hne : a.date ≠ r.date := by
        intro he
        refine (List.nodup_cons.mp hnd).1 ?_
        simpa [he] using List.mem_map_of_mem (fun q => q.date) hr2
      have hstep : lookupHk (a :: T) r.date = lookupHk T r.date :=
        List.find?_cons_of_neg _ (by simp [hne])
      rw [hstep]
      exact ih (List.nodup_cons.mp hnd).2 hr2

theorem list_map_id {α : Type} {l : List α} {f : α → α}
    (h : ∀ x ∈ l, f x = x) : l.map f = l := by
  induction l with
  | nil => rfl
  | cons a l ih =>
    rw [List.map_cons, h a (List.mem_cons_self a l),
      ih (fun x hx => h x (List.mem_cons_of_mem a hx))]

theorem lookupMise_cons_eq {r : MiseRow} (T : List MiseRow) {k : Nat}
    (h : r.date = k) : lookupMise (r :: T) k = some r :=
  List.find?_cons_of_pos _ (by simp [h])

theorem lookupMise_cons_ne {r : MiseRow} (T : List MiseRow) {k : Nat}
    (h : r.date ≠ k) : lookupMise (r :: T) k = lookupMise T k :=
  List.find?_cons_of_neg _ (by simp [h])

theorem mergeRowGithub_date (T : List MiseRow) (k c : Nat) :
    (FetchGithub.mergeRow T k c).date = k := by
  unfold FetchGithub.mergeRow
  cases h : lookupMise T k with
  | some row => simpa using lookupMise_date h
  | none => rfl

theorem mergeRowGithub_stars (T : List MiseRow) (k c : Nat) :
    (FetchGithub.mergeRow T k c).github_stars = natStr c := by
  unfold FetchGithub.mergeRow
  cases lookupMise T k <;> rfl

theorem mergeRowGithub_self {X : List MiseRow} {k c : Nat} {r : MiseRow}
    (h : lookupMise X k = some r) (hgh : r.github_stars = natStr c) :
    FetchGithub.mergeRow X k c = r := by
  unfold FetchGithub.mergeRow
  rw [h, ← hgh]

theorem buildRows_irrel (r : MiseRow) (T : List MiseRow) (dd : DailyDelta) :
    ∀ (ks : List Nat) (c : Nat), r.date ∉ ks →
      FetchGithub.buildRows (r :: T) dd ks c = FetchGithub.buildRows T dd ks c := by
  intro ks
  induction ks with
  | nil => intro c _; rfl
  | cons k ks ih =>
    intro c h
    have hne : r.date ≠ k := fun he => h (he ▸ List.mem_cons_self k ks)
    have hrow : FetchGithub.mergeRow (r :: T) k (c + ddGet dd k)
        = FetchGithub.mergeRow T k (c + ddGet dd k) := by
      unfold FetchGithub.mergeRow
      rw [lookupMise_cons_ne T hne]
    unfold FetchGithub.buildRows
    rw [hrow, ih _ (fun hm => h (List.mem_cons_of_mem k hm))]

theorem buildRows_cons (T : List MiseRow) (dd : DailyDelta) (k : Nat)
    (ks : List Nat) (c : Nat) :
    FetchGithub.buildRows T dd (k :: ks) c
      = FetchGithub.mergeRow T k (c + ddGet dd k)
        :: FetchGithub.buildRows T dd ks (c + ddGet dd k) := rfl

theorem buildRows_idem (T : List MiseRow) (dd : DailyDelta) :
    ∀ (ks : List Nat) (c : Nat), ks.Nodup →
      FetchGithub.buildRows (FetchGithub.buildRows T dd ks c) dd ks c
        = FetchGithub.buildRows T dd ks c := by
  intro ks
  induction ks with
  | nil => intro c _; rfl
  | cons k ks ih =>
    intro c hnd
    obtain ⟨hk, hnd2⟩ := List.nodup_cons.mp hnd
    rw [buildRows_cons, buildRows_cons]
    rw [buildRows_irrel _ _ _ _ _ ((mergeRowGithub_date T k (c + ddGet dd k)).symm ▸ hk),
      ih _ hnd2,
      mergeRowGithub_self
        (lookupMise_cons_eq _ (mergeRowGithub_date T k (c + ddGet dd k)))
        (mergeRowGithub_stars T k (c + ddGet dd k))]

theorem cumTriples_keys {d1 d2 d3 : DailyDelta} :
    ∀ {dates : List Nat} {c : Nat × Nat × Nat} {p : Nat × (Nat × Nat × Nat)},
      p ∈ BackfillHk.cumTriples d1 d2 d3 dates c → p.1 ∈ dates := by
  intro dates
  induction dates with
  | nil => intro c p h; exact absurd h (List.not_mem_nil p)
  | cons d ds ih =>
    intro c p h
    unfold BackfillHk.cumTriples at h
    rcases List.mem_cons.mp h with rfl | h2
    · exact List.mem_cons_self d ds
    · exact List.mem_cons_of_mem d (ih h2)

theorem updateRow_date (cums : List (Nat × (Nat × Nat × Nat))) (r : HkRow) :
    (BackfillHk.updateRow cums r).date = r.date := by
  unfold BackfillHk.updateRow
  split <;> rfl

theorem updateRow_of_absent {cums : List (Nat × (Nat × Nat × Nat))} {r : HkRow}
    (h : ∀ p ∈ cums, p.1 ≠ r.date) : BackfillHk.updateRow cums r = r := by
  unfold BackfillHk.updateRow
  rw [List.find?_eq_none.mpr (fun p hp => by simp [h p hp])]

theorem updateRow_eq (cums : List (Nat × (Nat × Nat × Nat))) (r : HkRow) :
    BackfillHk.updateRow cums r
      = match cums.find? (fun p => p.1 == r.date) with
        | some p => { r with precommit := p.2.1, prek := p.2.2.1, lefthook := p.2.2.2 }
        | none => r := rfl

theorem updateRow_idem (cums : List (Nat × (Nat × Nat × Nat))) (r : HkRow) :
    BackfillHk.updateRow cums (BackfillHk.updateRow cums r)
      = BackfillHk.updateRow cums r := by
  have hd : (BackfillHk.updateRow cums r).date = r.date := updateRow_date cums r
  cases h : cums.find? (fun p => p.1 == r.date) with
  | none =>
    have h1 : BackfillHk.updateRow cums r = r := by
      rw [updateRow_eq, h]
    rw [h1, h1]
  | some p =>
    have h2 : cums.find? (fun q => q.1 == (BackfillHk.updateRow cums r).date)
        = some p := by
      rw [hd]
      exact h
    rw [updateRow_eq cums (BackfillHk.updateRow cums r), h2]
    have h1 : BackfillHk.updateRow cums r
        = { r with precommit := p.2.1, prek := p.2.2.1, lefthook := p.2.2.2 } := by
      rw [updateRow_eq, h]
    rw [h1]

theorem mergeRowHkComp_date (T : List HkRow) (d : Nat) (c : Nat × Nat × Nat) :
    (FetchHkCompetitors.mergeRow T d c).date = d := by
  unfold FetchHkCompetitors.mergeRow
  cases h : lookupHk T d with
  | some row => simpa using lookupHk_date h
  | none => rfl

theorem historyRows_cons (T : List HkRow) (d1 d2 d3 : DailyDelta) (s a : Nat)
    (ds : List Nat) (c : Nat × Nat × Nat) :
    FetchHkCompetitors.historyRows T d1 d2 d3 s (a :: ds) c
      = if a < s then
          FetchHkCompetitors.historyRows T d1 d2 d3 s ds (stepTriple d1 d2 d3 a c)
        else
          FetchHkCompetitors.mergeRow T a (stepTriple d1 d2 d3 a c)
            :: FetchHkCompetitors.historyRows T d1 d2 d3 s ds
                (stepTriple d1 d2 d3 a c) := rfl

theorem buildRows_preserves (T : List MiseRow) (dd : DailyDelta) :
    ∀ (ks : List Nat) (c : Nat) (d : Nat) (r0 : MiseRow), d ∈ ks →
      lookupMise T d = some r0 →
      ∃ row, lookupMise (FetchGithub.buildRows T dd ks c) d = some row
        ∧ row.date = d ∧ row.brew_rank = r0.brew_rank
        ∧ row.brew_installs = r0.brew_installs ∧ row.brew_pct = r0.brew_pct := by
  intro ks
  induction ks with
  | nil => intro c d r0 hd _; exact absurd hd (List.not_mem_nil d)
  | cons k ks ih =>
    intro c d r0 hd hT
    rw [buildRows_cons]
    by_cases hk : k = d
    · subst hk
      refine ⟨FetchGithub.mergeRow T k (c + ddGet dd k),
        lookupMise_cons_eq _ (mergeRowGithub_date T k _),
        mergeRowGithub_date T k _, ?_, ?_, ?_⟩
      · unfold FetchGithub.mergeRow
        rw [hT]
      · unfold FetchGithub.mergeRow
        rw [hT]
      · unfold FetchGithub.mergeRow
        rw [hT]
    · have hd2 : d ∈ ks := by
        rcases List.mem_cons.mp hd with rfl | h2
        · exact absurd rfl hk
        · exact h2
      have hlk : lookupMise
          (FetchGithub.mergeRow T k (c + ddGet dd k)
            :: FetchGithub.buildRows T dd ks (c + ddGet dd k)) d
          = lookupMise (FetchGithub.buildRows T dd ks (c + ddGet dd k)) d :=
        lookupMise_cons_ne _ (by rw [mergeRowGithub_date]; exact hk)
      rw [hlk]
      exact ih _ d r0 hd2 hT

theorem historyRows_preserves (T : List HkRow) (d1 d2 d3 : DailyDelta) (s : Nat) :
    ∀ (dates : List Nat) (c : Nat × Nat × Nat) (d : Nat) (r0 : HkRow),
      d ∈ dates → s ≤ d → lookupHk T d = some r0 →
      ∃ row ∈ FetchHkCompetitors.historyRows T d1 d2 d3 s dates c,
        row.date = d ∧ row.hk = r0.hk := by
  intro dates
  induction dates with
  | nil => intro c d r0 hd _ _; exact absurd hd (List.not_mem_nil d)
  | cons a ds ih =>
    intro c d r0 hd hs hT
    rcases List.mem_cons.mp hd with rfl | h2
    · rw [historyRows_cons, if_neg (Nat.not_lt.mpr hs)]
      refine ⟨FetchHkCompetitors.mergeRow T d (stepTriple d1 d2 d3 d c),
        List.mem_cons_self _ _, mergeRowHkComp_date T d _, ?_⟩
      unfold FetchHkCompetitors.mergeRow
      rw [hT]
    · rw [historyRows_cons]
      by_cases ha : a < s
      · rw [if_pos ha]
        exact ih _ d r0 h2 hs hT
      · rw [if_neg ha]
        obtain ⟨row, hm, h3, h4⟩ := ih (stepTriple d1 d2 d3 a c) d r0 h2 hs hT
        exact ⟨row, List.mem_cons_of_mem _ hm, h3, h4⟩

theorem buildRows_dates (T : List MiseRow) (dd : DailyDelta) :
    ∀ (ks : List Nat) (c : Nat) (row : MiseRow),
      row ∈ FetchGithub.buildRows T dd ks c → row.date ∈ ks := by
  intro ks
  induction ks with
  | nil => intro c row h; exact absurd h (List.not_mem_nil row)
  | cons k ks ih =>
    intro c row h
    rw [buildRows_cons] at h
    rcases List.mem_cons.mp h with rfl | h2
    · rw [mergeRowGithub_date]
      exact List.mem_cons_self k ks
    · exact List.mem_cons_of_mem k (ih _ row h2)

/-! ## Claim C2 -/

/-- Claim C2 (confirmed): with identical fetched daily-star data, running
an accumulator entry point's merge over its own output changes nothing.
For fetch-github-history the keys of a daily-star dict are distinct; for
backfill-hk-competitors the persisted table has one row per date and the
baseline date (2025-01-26) precedes every backfilled date (from
2025-01-27 on), which the two side conditions record. -/
theorem c2_merge_idempotent :
    (∀ (T : List MiseRow) (dd : DailyDelta), (ddKeys dd).Nodup →
      FetchGithub.merge (FetchGithub.merge T dd) dd = FetchGithub.merge T dd)
    ∧ ∀ (T : List HkRow) (d1 d2 d3 : DailyDelta) (dates : List Nat) (bd : Nat),
        (T.map (fun r => r.date)).Nodup → bd ∉ dates →
        BackfillHk.merge (BackfillHk.merge T d1 d2 d3 dates bd) d1 d2 d3 dates bd
          = BackfillHk.merge T d1 d2 d3 dates bd := by
  constructor
  · intro T dd hnd
    unfold FetchGithub.merge
    exact buildRows_idem T dd _ 0
      (((List.perm_insertionSort _ _).nodup_iff).mpr hnd)
  · intro T d1 d2 d3 dates bd hnd hbd
    cases hb : lookupHk T bd with
    | none =>
      have e1 : BackfillHk.merge T d1 d2 d3 dates bd = T := by
        unfold BackfillHk.merge
        rw [hb]
      rw [e1, e1]
    | some b =>
      have e1 : BackfillHk.merge T d1 d2 d3 dates bd
          = BackfillHk.applyMerge T b d1 d2 d3 dates := by
        unfold BackfillHk.merge
        rw [hb]
      have hbdd : b.date = bd := lookupHk_date hb
      have hnotin : ∀ p ∈ BackfillHk.cumTriples d1 d2 d3 dates
          (b.precommit, b.prek, b.lefthook), p.1 ≠ b.date := by
        intro p hp he
        exact hbd (hbdd ▸ he ▸ cumTriples_keys hp)
      have hfix : BackfillHk.updateRow
          (BackfillHk.cumTriples d1 d2 d3 dates (b.precommit, b.prek, b.lefthook)) b
          = b := updateRow_of_absent hnotin
      have hbout : b ∈ BackfillHk.applyMerge T b d1 d2 d3 dates := by
        unfold BackfillHk.applyMerge sortHk
        refine ((List.perm_insertionSort _ _).mem_iff).mpr ?_
        have := List.mem_map_of_mem
          (BackfillHk.updateRow
            (BackfillHk.cumTriples d1 d2 d3 dates (b.precommit, b.prek, b.lefthook)))
          (lookupHk_mem hb)
        rwa [hfix] at this
      have hmapeq : (T.map (BackfillHk.updateRow
          (BackfillHk.cumTriples d1 d2 d3 dates
            (b.precommit, b.prek, b.lefthook)))).map (fun r => r.date)
          = T.map (fun r => r.date) := by
        rw [List.map_map]
        exact List.map_congr_left (fun r _ => updateRow_date _ r)
      have hndout : ((BackfillHk.applyMerge T b d1 d2 d3 dates).map
          (fun r => r.date)).Nodup := by
        have hperm : List.Perm
            ((BackfillHk.applyMerge T b d1 d2 d3 dates).map (fun r => r.date))
            ((T.map (BackfillHk.updateRow
              (BackfillHk.cumTriples d1 d2 d3 dates
                (b.precommit, b.prek, b.lefthook)))).map (fun r => r.date)) := by
          unfold BackfillHk.applyMerge sortHk
          exact (List.perm_insertionSort _ _).map _
        rw [hperm.nodup_iff, hmapeq]
        exact hnd
      have hlk : lookupHk (BackfillHk.applyMerge T b d1 d2 d3 dates) bd = some b :=
        hbdd ▸ lookupHk_unique hndout hbout
      have e2 : BackfillHk.merge (BackfillHk.applyMerge T b d1 d2 d3 dates)
          d1 d2 d3 dates bd
          = BackfillHk.applyMerge (BackfillHk.applyMerge T b d1 d2 d3 dates)
              b d1 d2 d3 dates := by
        unfold BackfillHk.merge
        rw [hlk]
      rw [e1, e2]
      have hfixall : ∀ r ∈ BackfillHk.applyMerge T b d1 d2 d3 dates,
          BackfillHk.updateRow
            (BackfillHk.cumTriples d1 d2 d3 dates (b.precommit, b.prek, b.lefthook)) r
            = r := by
        intro r hr
        have hr2 : r ∈ T.map (BackfillHk.updateRow
            (BackfillHk.cumTriples d1 d2 d3 dates
              (b.precommit, b.prek, b.lefthook))) := by
          have := hr
          unfold BackfillHk.applyMerge sortHk at this
          exact ((List.perm_insertionSort _ _).mem_iff).mp this
        obtain ⟨r0, _, rfl⟩ := List.mem_map.mp hr2
        exact updateRow_idem _ r0
      have hsorted : List.Sorted hkRowLe (BackfillHk.applyMerge T b d1 d2 d3 dates) := by
        unfold BackfillHk.applyMerge sortHk
        exact List.sorted_insertionSort _ _
      have happ : BackfillHk.applyMerge (BackfillHk.applyMerge T b d1 d2 d3 dates)
          b d1 d2 d3 dates
          = sortHk ((BackfillHk.applyMerge T b d1 d2 d3 dates).map
              (BackfillHk.updateRow
                (BackfillHk.cumTriples d1 d2 d3 dates
                  (b.precommit, b.prek, b.lefthook)))) := rfl
      rw [happ, list_map_id hfixall]
      exact List.Sorted.insertionSort_eq hsorted

/-- Witness for C2: a two-delta update of a one-row mise table and a
one-day backfill of a two-row hk table, each merged twice. -/
theorem c2_witness :
    FetchGithub.merge
        (FetchGithub.merge ([⟨5, emptyCell, emptyCell, emptyCell, zeroCell⟩] : List MiseRow)
          ([(5, 2), (6, 1)] : DailyDelta))
        ([(5, 2), (6, 1)] : DailyDelta)
      = FetchGithub.merge ([⟨5, emptyCell, emptyCell, emptyCell, zeroCell⟩] : List MiseRow)
          ([(5, 2), (6, 1)] : DailyDelta)
    ∧ BackfillHk.merge
        (BackfillHk.merge ([⟨10, zeroCell, 1, 2, 3⟩, ⟨11, zeroCell, 0, 0, 0⟩] : List HkRow)
          ([(11, 4)] : DailyDelta) [] [] [11] 10)
        ([(11, 4)] : DailyDelta) [] [] [11] 10
      = BackfillHk.merge ([⟨10, zeroCell, 1, 2, 3⟩, ⟨11, zeroCell, 0, 0, 0⟩] : List HkRow)
          ([(11, 4)] : DailyDelta) [] [] [11] 10 :=
  ⟨c2_merge_idempotent.1 ([⟨5, emptyCell, emptyCell, emptyCell, zeroCell⟩] : List MiseRow)
      ([(5, 2), (6, 1)] : DailyDelta) (by decide),
   c2_merge_idempotent.2 ([⟨10, zeroCell, 1, 2, 3⟩, ⟨11, zeroCell, 0, 0, 0⟩] : List HkRow)
      ([(11, 4)] : DailyDelta) [] [] [11] 10 (by decide) (by decide)⟩

/-! ## Claim C3 -/

/-- Claim C3 (confirmed): a merge rewrites only the cumulative-count
fields owned by the current run.  When fetch-github-history updates the
row of a fetched date, the three brew fields of the pre-existing row are
kept; when fetch-hk-competitors-history updates the row of an in-range
fetched date, the hk_stars field of the pre-existing row is kept. -/
theorem c3_field_preservation :
    (∀ (T : List MiseRow) (dd : DailyDelta) (d : Nat) (r0 : MiseRow),
      d ∈ ddKeys dd → lookupMise T d = some r0 →
      ∃ row, lookupMise (FetchGithub.merge T dd) d = some row
        ∧ row.date = d ∧ row.brew_rank = r0.brew_rank
        ∧ row.brew_installs = r0.brew_installs ∧ row.brew_pct = r0.brew_pct)
    ∧ ∀ (T : List HkRow) (d1 d2 d3 : DailyDelta) (s rel d : Nat) (r0 : HkRow),
        d ∈ FetchHkCompetitors.allDeltaDates d1 d2 d3 → s ≤ d →
        lookupHk T d = some r0 →
        ∃ row ∈ FetchHkCompetitors.merge T d1 d2 d3 s rel,
          row.date = d ∧ row.hk = r0.hk := by
  constructor
  · intro T dd d r0 hd hT
    unfold FetchGithub.merge
    refine buildRows_preserves T dd _ 0 d r0 ?_ hT
    exact ((List.perm_insertionSort _ _).mem_iff).mpr hd
  · intro T d1 d2 d3 s rel d r0 hd hs hT
    obtain ⟨row, hm, h3, h4⟩ :=
      historyRows_preserves T d1 d2 d3 s _ (0, 0, 0) d r0 hd hs hT
    refine ⟨row, ?_, h3, h4⟩
    unfold FetchHkCompetitors.merge sortHk
    refine ((List.perm_insertionSort _ _).mem_iff).mpr ?_
    exact List.mem_append_left _ hm

/-- Witness for C3: a brew-populated mise row updated for its date, and
an hk-populated competitor row updated in range. -/
theorem c3_witness :
    (∃ row, lookupMise (FetchGithub.merge
          ([⟨5, natStr 7, natStr 8, natStr 9, zeroCell⟩] : List MiseRow)
          ([(5, 2)] : DailyDelta)) 5 = some row
        ∧ row.date = 5
        ∧ row.brew_rank = (⟨5, natStr 7, natStr 8, natStr 9, zeroCell⟩ : MiseRow).brew_rank
        ∧ row.brew_installs
            = (⟨5, natStr 7, natStr 8, natStr 9, zeroCell⟩ : MiseRow).brew_installs
        ∧ row.brew_pct = (⟨5, natStr 7, natStr 8, natStr 9, zeroCell⟩ : MiseRow).brew_pct)
    ∧ ∃ row ∈ FetchHkCompetitors.merge ([⟨150, natStr 3, 1, 1, 1⟩] : List HkRow)
        ([(150, 2)] : DailyDelta) [] [] 100 200,
        row.date = 150 ∧ row.hk = (⟨150, natStr 3, 1, 1, 1⟩ : HkRow).hk :=
  ⟨c3_field_preservation.1 ([⟨5, natStr 7, natStr 8, natStr 9, zeroCell⟩] : List MiseRow)
      ([(5, 2)] : DailyDelta) 5 ⟨5, natStr 7, natStr 8, natStr 9, zeroCell⟩
      (by decide) (by decide),
   c3_field_preservation.2 ([⟨150, natStr 3, 1, 1, 1⟩] : List HkRow)
      ([(150, 2)] : DailyDelta) [] [] 100 200 150 ⟨150, natStr 3, 1, 1, 1⟩
      (by decide) (by decide) (by decide)⟩

/-! ## Claim C4 -/

/-- Claim C4 (corrected): only existing rows dated strictly after the
cutoff are guaranteed to survive a fetch-hk-competitors-history merge
unchanged; rows on other dates without fetched events are dropped, and a
fetch-github-history merge keeps exactly the fetched dates (second
conjunct), so every other pre-existing row is dropped. -/
theorem c4_outside_rows (T : List HkRow) (d1 d2 d3 : DailyDelta)
    (s rel : Nat) (r0 : HkRow) (hm : r0 ∈ T) (hrel : rel < r0.date) :
    r0 ∈ FetchHkCompetitors.merge T d1 d2 d3 s rel
    ∧ ∀ (T2 : List MiseRow) (dd : DailyDelta) (row : MiseRow),
        row ∈ FetchGithub.merge T2 dd → row.date ∈ ddKeys dd := by
  constructor
  · unfold FetchHkCompetitors.merge sortHk
    refine ((List.perm_insertionSort _ _).mem_iff).mpr ?_
    refine List.mem_append_right _ ?_
    exact List.mem_filter.mpr ⟨hm, by simp [hrel]⟩
  · intro T2 dd row h
    have h1 : row.date ∈ sortNat (ddKeys dd) := by
      unfold FetchGithub.merge at h
      exact buildRows_dates T2 dd _ 0 row h
    exact ((List.perm_insertionSort _ _).mem_iff).mp h1

/-- Witness for C4 at a post-cutoff row and a synthesized github row. -/
theorem c4_witness :
    (⟨250, zeroCell, 1, 2, 3⟩ : HkRow) ∈ FetchHkCompetitors.merge
        ([⟨250, zeroCell, 1, 2, 3⟩] : List HkRow) [] [] [] 100 200
    ∧ ∀ (T2 : List MiseRow) (dd : DailyDelta) (row : MiseRow),
        row ∈ FetchGithub.merge T2 dd → row.date ∈ ddKeys dd :=
  c4_outside_rows ([⟨250, zeroCell, 1, 2, 3⟩] : List HkRow) [] [] [] 100 200
    ⟨250, zeroCell, 1, 2, 3⟩ (by decide) (by decide)

/-- Counterexample for C4 as stated: a pre-existing row dated 50, outside
the fetched range (the only fetched date is 150, and 50 is before
START_DATE 100 and not after the cutoff 200), is dropped by the merge
instead of being preserved. -/
theorem c4_counterexample :
    lookupHk ([⟨50, zeroCell, 1, 2, 3⟩] : List HkRow) 50 = some ⟨50, zeroCell, 1, 2, 3⟩
    ∧ FetchHkCompetitors.merge ([⟨50, zeroCell, 1, 2, 3⟩] : List HkRow)
        ([(150, 2)] : DailyDelta) [] [] 100 200 = [⟨150, zeroCell, 2, 0, 0⟩]
    ∧ lookupHk (FetchHkCompetitors.merge ([⟨50, zeroCell, 1, 2, 3⟩] : List HkRow)
        ([(150, 2)] : DailyDelta) [] [] 100 200) 50 = none := by
  decide

/-! ## Claim C7 -/

/-- Claim C7 (confirmed): in a window where the reference slope strictly
exceeds the competitor slope and the reference current total is strictly
below the competitor current total, both predictors compute
days_to_cross = (competitor current - reference current) / (reference
slope - competitor slope); this value is never negative, the window
yields no result when it exceeds 3650 days, and otherwise the crossing
is now plus the truncated days_to_cross with the strictly positive
daily gain. -/
theorem c7_days_to_cross_horizon (df : List CompRow) (days now : Int)
    (msl tsl : Rat)
    (h1 : df.isEmpty = false) (h2 : (recentWindow df days).isEmpty = false)
    (h3 : GenFastest.degenerate df days = false)
    (hm : linregressSlope (windowXs df days) (windowMise df days) = some msl)
    (ht : linregressSlope (windowXs df days) (windowTool df days) = some tsl)
    (hslope : tsl < msl) (hcur : miseCurrent df < toolCurrent df) :
    0 ≤ (toolCurrent df - miseCurrent df) / (msl - tsl)
    ∧ ((toolCurrent df - miseCurrent df) / (msl - tsl) ≤ 3650 →
        GenFastest.predict_crossing df days now
          = PredResult.cross
              (now + Rat.floor ((toolCurrent df - miseCurrent df) / (msl - tsl)))
              (msl - tsl)
        ∧ PlotStats.predict_crossing df days now
          = PredResult.cross
              (now + Rat.floor ((toolCurrent df - miseCurrent df) / (msl - tsl)))
              (msl - tsl)
        ∧ 0 < msl - tsl)
    ∧ (3650 < (toolCurrent df - miseCurrent df) / (msl - tsl) →
        GenFastest.predict_crossing df days now = PredResult.noCross
        ∧ PlotStats.predict_crossing df days now = PredResult.noCross) := by
  have hg : 0 < msl - tsl := sub_pos.mpr hslope
  have hd : 0 < toolCurrent df - miseCurrent df := sub_pos.mpr hcur
  have hdtc : 0 ≤ (toolCurrent df - miseCurrent df) / (msl - tsl) :=
    le_of_lt (div_pos hd hg)
  have hredg : GenFastest.predict_crossing df days now
      = GenFastest.predictCore msl tsl (miseCurrent df) (toolCurrent df) now := by
    simp [GenFastest.predict_crossing, h1, h2, h3, hm, ht]
  have hredp : PlotStats.predict_crossing df days now
      = PlotStats.predictCore msl tsl (miseCurrent df) (toolCurrent df) now := by
    simp [PlotStats.predict_crossing, hm, ht]
  refine ⟨hdtc, fun hle => ?_, fun hgt => ?_⟩
  · refine ⟨?_, ?_, hg⟩
    · rw [hredg]
      unfold GenFastest.predictCore
      rw [if_neg (not_le.mpr hslope), if_neg (not_le.mpr hcur),
        if_neg (not_le.mpr hg),
        if_neg (by push_neg; exact ⟨hdtc, hle⟩)]
    · rw [hredp]
      unfold PlotStats.predictCore
      rw [if_neg (not_le.mpr hslope), if_neg (not_le.mpr hcur),
        if_neg (not_le.mpr hg), if_neg (not_lt.mpr hdtc), if_neg (not_lt.mpr hle)]
  · constructor
    · rw [hredg]
      unfold GenFastest.predictCore
      rw [if_neg (not_le.mpr hslope), if_neg (not_le.mpr hcur),
        if_neg (not_le.mpr hg), if_pos (Or.inr hgt)]
    · rw [hredp]
      unfold PlotStats.predictCore
      rw [if_neg (not_le.mpr hslope), if_neg (not_le.mpr hcur),
        if_neg (not_le.mpr hg), if_neg (not_lt.mpr hdtc), if_pos hgt]

/-- Witness for C7 at the converging example of the spec: reference
grows 2 per day from 100, competitor 1 per day from 150, gap 48 at the
window end, so the crossing is 48 days out at gain 1. -/
theorem c7_witness :
    0 ≤ (toolCurrent ([⟨0, 100, 150⟩, ⟨1, 102, 151⟩, ⟨2, 104, 152⟩] : List CompRow)
        - miseCurrent ([⟨0, 100, 150⟩, ⟨1, 102, 151⟩, ⟨2, 104, 152⟩] : List CompRow))
        / (2 - 1)
    ∧ ((toolCurrent ([⟨0, 100, 150⟩, ⟨1, 102, 151⟩, ⟨2, 104, 152⟩] : List CompRow)
        - miseCurrent ([⟨0, 100, 150⟩, ⟨1, 102, 151⟩, ⟨2, 104, 152⟩] : List CompRow))
        / (2 - 1) ≤ 3650 →
        GenFastest.predict_crossing
          ([⟨0, 100, 150⟩, ⟨1, 102, 151⟩, ⟨2, 104, 152⟩] : List CompRow) 30 0
          = PredResult.cross
              (0 + Rat.floor
                ((toolCurrent ([⟨0, 100, 150⟩, ⟨1, 102, 151⟩, ⟨2, 104, 152⟩] : List CompRow)
                  - miseCurrent ([⟨0, 100, 150⟩, ⟨1, 102, 151⟩, ⟨2, 104, 152⟩] : List CompRow))
                  / (2 - 1)))
              (2 - 1)
        ∧ PlotStats.predict_crossing
          ([⟨0, 100, 150⟩, ⟨1, 102, 151⟩, ⟨2, 104, 152⟩] : List CompRow) 30 0
          = PredResult.cross
              (0 + Rat.floor
                ((toolCurrent ([⟨0, 100, 150⟩, ⟨1, 102, 151⟩, ⟨2, 104, 152⟩] : List CompRow)
                  - miseCurrent ([⟨0, 100, 150⟩, ⟨1, 102, 151⟩, ⟨2, 104, 152⟩] : List CompRow))
                  / (2 - 1)))
              (2 - 1)
        ∧ (0 : Rat) < 2 - 1)
    ∧ (3650 < (toolCurrent ([⟨0, 100, 150⟩, ⟨1, 102, 151⟩, ⟨2, 104, 152⟩] : List CompRow)
        - miseCurrent ([⟨0, 100, 150⟩, ⟨1, 102, 151⟩, ⟨2, 104, 152⟩] : List CompRow))
        / (2 - 1) →
        GenFastest.predict_crossing
          ([⟨0, 100, 150⟩, ⟨1, 102, 151⟩, ⟨2, 104, 152⟩] : List CompRow) 30 0
          = PredResult.noCross
        ∧ PlotStats.predict_crossing
          ([⟨0, 100, 150⟩, ⟨1, 102, 151⟩, ⟨2, 104, 152⟩] : List CompRow) 30 0
          = PredResult.noCross) :=
  c7_days_to_cross_horizon
    ([⟨0, 100, 150⟩, ⟨1, 102, 151⟩, ⟨2, 104, 152⟩] : List CompRow) 30 0 2 1
    (by with_unfolding_all decide) (by with_unfolding_all decide)
    (by with_unfolding_all decide) (by with_unfolding_all decide)
    (by with_unfolding_all decide) (by with_unfolding_all decide)
    (by with_unfolding_all decide)

/-! ## Claim C5 -/

/-- Claim C5 (corrected): backfill-hk-competitors counts an event iff its
truncated day lies in [start, end] inclusive, because the end bound is
extended to 23:59:59 of the end day; backfill-just compares the full
timestamp against midnight UTC of the end date instead, so there an
event is counted iff start is at most its day and its timestamp is at
most end * 86400 — events later in the end day are excluded. -/
theorem c5_date_filter_bounds (s e t : Nat) :
    (BackfillHk.included s e t = true ↔ s ≤ t / 86400 ∧ t / 86400 ≤ e)
    ∧ (BackfillJust.included (some s) (some e) t = true
        ↔ s ≤ t / 86400 ∧ t ≤ e * 86400) := by
  constructor
  · show (decide (s * 86400 ≤ t) && decide (t ≤ e * 86400 + 86399)) = true ↔ _
    simp only [Bool.and_eq_true, decide_eq_true_eq]
    constructor
    · rintro ⟨h1, h2⟩
      omega
    · rintro ⟨h1, h2⟩
      omega
  · show (decide (s * 86400 ≤ t) && decide (t ≤ e * 86400)) = true ↔ _
    simp only [Bool.and_eq_true, decide_eq_true_eq]
    constructor
    · rintro ⟨h1, h2⟩
      omega
    · rintro ⟨h1, h2⟩
      omega

/-- Counterexample for C5 as stated: an event at 01:00 UTC on the end day
(end = day 5, timestamp 5 * 86400 + 3600) has event day 5 within the
inclusive bounds [0, 5], yet backfill-just excludes it; the
backfill-hk-competitors filter includes it. -/
theorem c5_counterexample :
    (5 * 86400 + 3600) / 86400 ≤ 5
    ∧ BackfillJust.included (some 0) (some 5) (5 * 86400 + 3600) = false
    ∧ BackfillHk.included 0 5 (5 * 86400 + 3600) = true := by
  decide

/-! ## Claim C8 -/

theorem fetchPages_cons (cutoff : Nat) (pg : List Nat) (rest : List (List Nat)) :
    FetchHkCompetitors.fetch_stargazer_history cutoff (pg :: rest)
      = if pg.isEmpty then ([], 1)
        else if pg.any (fun t => decide (cutoff < t)) then
          (pg.filter (fun t => decide (t ≤ cutoff)), 1)
        else
          (pg.filter (fun t => decide (t ≤ cutoff))
              ++ (FetchHkCompetitors.fetch_stargazer_history cutoff rest).1,
            (FetchHkCompetitors.fetch_stargazer_history cutoff rest).2 + 1) := rfl

/-- Pagination behaviour of fetch-hk-competitors-history: with ascending
pages and no empty page before exhaustion, the counted events are
exactly those with timestamp at or before the cutoff, and the number of
page requests is one more than the index of the page holding the first
later event (all pages plus the final empty response when no event
exceeds the cutoff). -/
theorem hkCompPagination (cutoff : Nat) (pages : List (List Nat))
    (hne : ∀ pg ∈ pages, pg ≠ [])
    (hsort : List.Pairwise (· ≤ ·) pages.flatten) :
    (FetchHkCompetitors.fetch_stargazer_history cutoff pages).1
      = pages.flatten.filter (fun t => decide (t ≤ cutoff))
    ∧ (FetchHkCompetitors.fetch_stargazer_history cutoff pages).2
      = (if pages.findIdx (fun pg => pg.any (fun t => decide (cutoff < t)))
            < pages.length
         then pages.findIdx (fun pg => pg.any (fun t => decide (cutoff < t))) + 1
         else pages.length + 1) := by
  induction pages with
  | nil => exact ⟨rfl, rfl⟩
  | cons pg rest ih =>
    have hpg : pg.isEmpty = false := by
      have := hne pg (List.mem_cons_self pg rest)
      cases pg with
      | nil => exact absurd rfl this
      | cons a l => rfl
    rw [List.flatten_cons] at hsort
    obtain ⟨h1, h2, h3⟩ := List.pairwise_append.mp hsort
    rw [fetchPages_cons, if_neg (by rw [hpg]; exact Bool.false_ne_true)]
    by_cases hstop : pg.any (fun t => decide (cutoff < t)) = true
    · rw [if_pos hstop]
      constructor
      · rw [List.flatten_cons, List.filter_append]
        have hrest : rest.flatten.filter (fun t => decide (t ≤ cutoff)) = [] := by
          rw [List.filter_eq_nil_iff]
          intro y hy
          obtain ⟨x, hx, hxg⟩ := List.any_eq_true.mp hstop
          have hxy : x ≤ y := h3 x hx y hy
          simp only [decide_eq_true_eq] at hxg ⊢
          omega
        rw [hrest, List.append_nil]
      · simp [List.findIdx_cons, hstop]
    · rw [if_neg hstop]
      obtain ⟨ihev, ihcount⟩ :=
        ih (fun q hq => hne q (List.mem_cons_of_mem pg hq)) h2
      constructor
      · rw [List.flatten_cons, List.filter_append, ihev]
      · rw [ihcount]
        simp only [List.findIdx_cons, hstop, cond_false, List.length_cons]
        split_ifs <;> omega

theorem backfillFetch_cons (s e : Nat) (pg : List Nat) (rest : List (List Nat)) :
    BackfillHk.fetch_stargazer_history s e (pg :: rest)
      = if pg.isEmpty then ([], 1)
        else if e * 86400 + 86399 < pg.getLastD 0 then
          (pg.filter (BackfillHk.included s e), 1)
        else
          (pg.filter (BackfillHk.included s e)
              ++ (BackfillHk.fetch_stargazer_history s e rest).1,
            (BackfillHk.fetch_stargazer_history s e rest).2 + 1) := rfl

theorem getLastD_mem_of_ne_nil {pg : List Nat} (h : pg ≠ []) :
    pg.getLastD 0 ∈ pg := by
  rw [List.getLastD_eq_getLast?, List.getLast?_eq_getLast pg h]
  exact List.getLast_mem h

/-- Pagination behaviour of backfill-hk-competitors: each page is
scanned in full and an event is counted iff it lies inside the
configured [start, end] bounds; with ascending pages, the page whose
last event first passes the end bound is the last one requested (that
is the page holding the first out-of-range event, since the last event
of a page is its maximum). -/
theorem backfillPagination (s e : Nat) (pages : List (List Nat))
    (hne : ∀ pg ∈ pages, pg ≠ [])
    (hsort : List.Pairwise (· ≤ ·) pages.flatten) :
    (BackfillHk.fetch_stargazer_history s e pages).1
      = pages.flatten.filter (BackfillHk.included s e)
    ∧ (BackfillHk.fetch_stargazer_history s e pages).2
      = (if pages.findIdx (fun pg => decide (e * 86400 + 86399 < pg.getLastD 0))
            < pages.length
         then pages.findIdx
            (fun pg => decide (e * 86400 + 86399 < pg.getLastD 0)) + 1
         else pages.length + 1) := by
  induction pages with
  | nil => exact ⟨rfl, rfl⟩
  | cons pg rest ih =>
    have hpgne : pg ≠ [] := hne pg (List.mem_cons_self pg rest)
    have hpg : pg.isEmpty = false := by
      cases pg with
      | nil => exact absurd rfl hpgne
      | cons a l => rfl
    rw [List.flatten_cons] at hsort
    obtain ⟨h1, h2, h3⟩ := List.pairwise_append.mp hsort
    rw [backfillFetch_cons, if_neg (by rw [hpg]; exact Bool.false_ne_true)]
    by_cases hstop : e * 86400 + 86399 < pg.getLastD 0
    · rw [if_pos hstop]
      constructor
      · rw [List.flatten_cons, List.filter_append]
        have hrest : rest.flatten.filter (BackfillHk.included s e) = [] := by
          rw [List.filter_eq_nil_iff]
          intro y hy
          have hlasty : pg.getLastD 0 ≤ y := h3 _ (getLastD_mem_of_ne_nil hpgne) y hy
          simp only [BackfillHk.included, Bool.and_eq_true, decide_eq_true_eq, not_and]
          intro _
          omega
        rw [hrest, List.append_nil]
      · have hdt : decide (e * 86400 + 86399 < pg.getLastD 0) = true :=
          decide_eq_true hstop
        simp only [List.findIdx_cons, hdt, cond_true, List.length_cons]
        split_ifs <;> omega
    · rw [if_neg hstop]
      obtain ⟨ihev, ihcount⟩ :=
        ih (fun q hq => hne q (List.mem_cons_of_mem pg hq)) h2
      constructor
      · rw [List.flatten_cons, List.filter_append, ihev]
      · rw [ihcount]
        have hdf : decide (e * 86400 + 86399 < pg.getLastD 0) = false :=
          decide_eq_false hstop
        simp only [List.findIdx_cons, hdf, cond_false, List.length_cons]
        split_ifs <;> omega

/-- Claim C8 (corrected): the stop-after-page discipline holds for both
cited accumulators under ascending pages, and for
fetch-hk-competitors-history the counted events are exactly those with
timestamp at or before the cutoff; but backfill-hk-competitors counts an
event only when it also lies at or after its configured start bound, so
there an event at or before the cutoff can be excluded (see the
counterexample).  Its stop test compares the page's last event — the
page's maximum under ascending order — against the end bound, so it too
requests no page after the one holding the first out-of-range event. -/
theorem c8_pagination_cutoff :
    (∀ (cutoff : Nat) (pages : List (List Nat)), (∀ pg ∈ pages, pg ≠ []) →
      List.Pairwise (· ≤ ·) pages.flatten →
      (FetchHkCompetitors.fetch_stargazer_history cutoff pages).1
        = pages.flatten.filter (fun t => decide (t ≤ cutoff))
      ∧ (FetchHkCompetitors.fetch_stargazer_history cutoff pages).2
        = (if pages.findIdx (fun pg => pg.any (fun t => decide (cutoff < t)))
              < pages.length
           then pages.findIdx (fun pg => pg.any (fun t => decide (cutoff < t))) + 1
           else pages.length + 1))
    ∧ ∀ (s e : Nat) (pages : List (List Nat)), (∀ pg ∈ pages, pg ≠ []) →
        List.Pairwise (· ≤ ·) pages.flatten →
        (BackfillHk.fetch_stargazer_history s e pages).1
          = pages.flatten.filter (BackfillHk.included s e)
        ∧ (BackfillHk.fetch_stargazer_history s e pages).2
          = (if pages.findIdx (fun pg => decide (e * 86400 + 86399 < pg.getLastD 0))
                < pages.length
             then pages.findIdx
                (fun pg => decide (e * 86400 + 86399 < pg.getLastD 0)) + 1
             else pages.length + 1) :=
  ⟨hkCompPagination, backfillPagination⟩

/-- Witness for C8: three ascending pages with the cutoff inside the
second page for the fetch-hk-competitors loop (events 1, 2, 3 counted,
5 and 7 not, two pages requested), and two ascending pages for the
backfill loop with start day 1 and end day 2 (events 100000 and 200000
counted, 300000 past the end bound stops the fetch at two pages). -/
theorem c8_witness :
    ((FetchHkCompetitors.fetch_stargazer_history 4 [[1, 2], [3, 5], [7]]).1
      = ([[1, 2], [3, 5], [7]] : List (List Nat)).flatten.filter
          (fun t => decide (t ≤ 4))
    ∧ (FetchHkCompetitors.fetch_stargazer_history 4 [[1, 2], [3, 5], [7]]).2
      = (if ([[1, 2], [3, 5], [7]] : List (List Nat)).findIdx
            (fun pg => pg.any (fun t => decide (4 < t)))
            < ([[1, 2], [3, 5], [7]] : List (List Nat)).length
         then ([[1, 2], [3, 5], [7]] : List (List Nat)).findIdx
            (fun pg => pg.any (fun t => decide (4 < t))) + 1
         else ([[1, 2], [3, 5], [7]] : List (List Nat)).length + 1))
    ∧ ((BackfillHk.fetch_stargazer_history 1 2 [[100000], [200000, 300000]]).1
      = ([[100000], [200000, 300000]] : List (List Nat)).flatten.filter
          (BackfillHk.included 1 2)
    ∧ (BackfillHk.fetch_stargazer_history 1 2 [[100000], [200000, 300000]]).2
      = (if ([[100000], [200000, 300000]] : List (List Nat)).findIdx
            (fun pg => decide (2 * 86400 + 86399 < pg.getLastD 0))
            < ([[100000], [200000, 300000]] : List (List Nat)).length
         then ([[100000], [200000, 300000]] : List (List Nat)).findIdx
            (fun pg => decide (2 * 86400 + 86399 < pg.getLastD 0)) + 1
         else ([[100000], [200000, 300000]] : List (List Nat)).length + 1)) :=
  ⟨c8_pagination_cutoff.1 4 [[1, 2], [3, 5], [7]] (by decide) (by decide),
   c8_pagination_cutoff.2 1 2 [[100000], [200000, 300000]] (by decide) (by decide)⟩

/-- Counterexample for C8 as stated: with start day 10 and end day 20
configured in backfill-hk-competitors, an event at timestamp 432000
(midnight of day 5) is at or before the cutoff (the end bound
20 * 86400 + 86399) yet is not counted — the run returns no events even
though it requests both the event's page and the final empty page. -/
theorem c8_counterexample :
    432000 ≤ 20 * 86400 + 86399
    ∧ BackfillHk.fetch_stargazer_history 10 20 [[432000]] = ([], 2) := by
  decide

/-! ## Claim C9 -/

/-- Claim C9 (corrected): of the update-in-place entry points, a missing
required table is a logged early return for fetch-hk-history.main and
backfill-hk-competitors.main, but backfill-just reads competitors.csv at
module level outside any try block and therefore propagates the
FileNotFoundError instead of returning early. -/
theorem c9_missing_table (dd dd2 d1 d2 d3 : DailyDelta) (rel bd : Nat)
    (dates : List Nat) :
    FetchHkHistory.run none dd rel = RunOutcome.earlyReturn hkCsvMissingMsg
    ∧ BackfillHk.run none d1 d2 d3 dates bd = RunOutcome.earlyReturn hkCsvMissingMsg
    ∧ BackfillJust.run none dd2 = RunOutcome.raised competitorsCsvMissingMsg :=
  ⟨rfl, rfl, rfl⟩

/-- Counterexample for C9 as stated: the backfill-just entry point raises
on a missing competitors.csv rather than logging and returning early. -/
theorem c9_counterexample :
    BackfillJust.run none [] = RunOutcome.raised competitorsCsvMissingMsg
    ∧ BackfillJust.run none [] ≠ RunOutcome.earlyReturn competitorsCsvMissingMsg := by
  constructor
  · rfl
  · intro h
    exact absurd h (by simp [BackfillJust.run])

/-! ## Claim C10 -/

/-- Claim C10 (corrected): the already-ahead branch of the chart
predictors is unreachable only under the stronger precondition that the
competitor total consulted inside predict_crossing (the last row of the
frame) strictly exceeds the reference current count; the competitor
filter of the chart scripts instead consults the last row with a
positive competitor value, which can be larger than the final row (see
the counterexample), so the branch is reachable as the claim stands. -/
theorem c10_already_ahead_unreachable (df : List CompRow) (mc : Rat)
    (days now : Int) (h1 : mc = miseCurrent df) (h2 : mc < toolCurrent df) :
    ∀ (dy : Int) (g : Rat),
      PlotStats.predict_crossing df days now ≠ PredResult.ahead dy g := by
  intro dy g
  subst h1
  rcases hv1 : linregressSlope (windowXs df days) (windowMise df days) with _ | v1
  · simp [PlotStats.predict_crossing, hv1]
  · rcases hv2 : linregressSlope (windowXs df days) (windowTool df days) with _ | v2
    · simp [PlotStats.predict_crossing, hv1, hv2]
    · have hred : PlotStats.predict_crossing df days now
          = PlotStats.predictCore v1 v2 (miseCurrent df) (toolCurrent df) now := by
        simp [PlotStats.predict_crossing, hv1, hv2]
      rw [hred]
      exact plotCore_ne_ahead h2 dy g

/-- Witness for C10 on a frame whose last row still has the competitor
strictly ahead. -/
theorem c10_witness :
    PlotStats.predict_crossing ([⟨0, 10, 100⟩, ⟨1, 11, 105⟩] : List CompRow) 30 0
      ≠ PredResult.ahead 0 94 :=
  c10_already_ahead_unreachable ([⟨0, 10, 100⟩, ⟨1, 11, 105⟩] : List CompRow)
    11 30 0 (by with_unfolding_all decide) (by with_unfolding_all decide) 0 94

/-- Counterexample for C10 as stated: the filter accepts the competitor
(its last positive value 100 exceeds the reference current 10, which is
also the reference value seen inside predict_crossing), yet the
already-ahead branch fires because the frame's final competitor value is
0. -/
theorem c10_counterexample :
    PlotStats.activeCompetitor ([⟨0, 10, 100⟩, ⟨1, 10, 0⟩] : List CompRow) 10 = true
    ∧ miseCurrent ([⟨0, 10, 100⟩, ⟨1, 10, 0⟩] : List CompRow) = 10
    ∧ PlotStats.predict_crossing ([⟨0, 10, 100⟩, ⟨1, 10, 0⟩] : List CompRow) 30 0
        = PredResult.ahead 0 100 := by
  with_unfolding_all decide

end MiseAnalytics
